import Mathlib

/-!
Shallow embedding of `src/app.py` (LeVietDuongg/backend-shop): a small Flask
backend with user registration, login and a bearer-token middleware.

Modelling choices:
* The SQLAlchemy `User` table is a list of records plus an auto-increment
  counter (`DB`).
* `werkzeug.security.generate_password_hash / check_password_hash`
  (external library, method `sha256`) are modelled as a salted digest stored
  in the `method$salt$digest` format werkzeug uses; the digest itself is an
  injective executable encoding standing in for SHA-256.
* `jwt.encode / jwt.decode` (PyJWT, HS256) are modelled as a token string
  `jwt.<user_id>.<exp>.<mac>` whose mac is recomputed from the key at decode
  time; decode verifies the mac first, then the `exp` claim, exactly in
  PyJWT's order.
* Python's `token.replace('Bearer ', '')` is embedded as `stripBearer`, a
  leftmost non-overlapping delete of every occurrence, matching
  `str.replace` semantics.
* Times are seconds as naturals; `datetime.utcnow() + timedelta(hours=24)`
  becomes `now + 24 * 3600`.
-/

deriving instance DecidableEq for Except

namespace BackendShop

/-- Decimal digit character for a digit value below 10. -/
def digitChar (n : Nat) : Char :=
  if n = 0 then '0' else if n = 1 then '1' else if n = 2 then '2'
  else if n = 3 then '3' else if n = 4 then '4' else if n = 5 then '5'
  else if n = 6 then '6' else if n = 7 then '7' else if n = 8 then '8'
  else '9'

/-- Fuelled worker for `natDigits`; the fuel only forces structural
recursion and is irrelevant once it exceeds the argument. -/
def natDigitsAux : Nat → Nat → List Char
  | 0, _ => []
  | f + 1, n =>
    if n < 10 then [digitChar n]
    else natDigitsAux f (n / 10) ++ [digitChar (n % 10)]

/-- Decimal representation of a natural number, most significant digit first. -/
def natDigits (n : Nat) : List Char := natDigitsAux (n + 1) n

theorem natDigitsAux_eq {n : Nat} : ∀ {f : Nat}, n < f → natDigitsAux f n = natDigits n := by
  induction n using Nat.strong_induction_on with
  | _ n ih =>
    intro f hf
    match f with
    | g + 1 =>
      show natDigitsAux (g + 1) n = natDigitsAux (n + 1) n
      simp only [natDigitsAux]
      split
      · rfl
      · next h =>
        have h10 : n / 10 < n := Nat.div_lt_self (by omega) (by omega)
        rw [ih (n / 10) h10 (by omega), ih (n / 10) h10 (by omega)]

/-- Unfolding equation for `natDigits`. -/
theorem natDigits_eq (n : Nat) :
    natDigits n
      = if n < 10 then [digitChar n]
        else natDigits (n / 10) ++ [digitChar (n % 10)] := by
  show natDigitsAux (n + 1) n = _
  simp only [natDigitsAux]
  split
  · rfl
  · next h =>
    rw [natDigitsAux_eq (Nat.div_lt_self (by omega) (by omega))]

/-- Read a decimal digit string back into a natural number. -/
def digitsToNat (l : List Char) : Nat :=
  l.foldl (fun a c => a * 10 + (c.toNat - 48)) 0

theorem digitChar_toNat {n : Nat} (h : n < 10) : (digitChar n).toNat = 48 + n := by
  interval_cases n <;> rfl

theorem digitChar_isDigit {n : Nat} (h : n < 10) : (digitChar n).isDigit = true := by
  interval_cases n <;> rfl

theorem natDigits_ne_nil (n : Nat) : natDigits n ≠ [] := by
  rw [natDigits_eq]
  split <;> simp

theorem natDigits_isDigit (n : Nat) : ∀ c ∈ natDigits n, c.isDigit = true := by
  induction n using Nat.strong_induction_on with
  | _ n ih =>
    rw [natDigits_eq]
    split
    · next h => intro c hc; simp at hc; subst hc; exact digitChar_isDigit h
    · next h =>
      intro c hc
      rw [List.mem_append] at hc
      rcases hc with hc | hc
      · exact ih (n / 10) (Nat.div_lt_self (by omega) (by omega)) c hc
      · simp at hc; subst hc; exact digitChar_isDigit (Nat.mod_lt _ (by omega))

theorem digitsToNat_natDigits (n : Nat) : digitsToNat (natDigits n) = n := by
  induction n using Nat.strong_induction_on with
  | _ n ih =>
    rw [natDigits_eq]
    split
    · next h =>
      simp [digitsToNat, digitChar_toNat h]
    · next h =>
      have hrec := ih (n / 10) (Nat.div_lt_self (by omega) (by omega))
      simp only [digitsToNat, List.foldl_append, List.foldl_cons, List.foldl_nil] at *
      rw [hrec, digitChar_toNat (Nat.mod_lt _ (by omega))]
      omega

/-- Encoding of one character: its decimal codepoint followed by a dot. -/
def encChar (c : Char) : List Char := natDigits c.toNat ++ ['.']

/-- Injective executable encoding of a character list into digits and dots.
Stands in for the raw cryptographic primitives (SHA-256 digest, HS256 mac)
used by the external `werkzeug` and `jwt` libraries. -/
def encodeChars : List Char → List Char
  | [] => []
  | c :: rest => encChar c ++ encodeChars rest

/-- Split a character list at the first occurrence of `sep`
(Python `str.split(sep, 1)` when at least one separator is present). -/
def splitFirst (sep : Char) : List Char → Option (List Char × List Char)
  | [] => none
  | c :: rest =>
    if c = sep then some ([], rest)
    else
      match splitFirst sep rest with
      | none => none
      | some (a, b) => some (c :: a, b)

/-- The characters of the marker string `"Bearer "`. -/
def bearerChars : List Char := ['B', 'e', 'a', 'r', 'e', 'r', ' ']

/-- Python `token.replace('Bearer ', '')`: delete every leftmost
non-overlapping occurrence of `"Bearer "`. -/
def stripBearerAux : Nat → List Char → List Char
  | 0, l => l
  | _ + 1, [] => []
  | f + 1, c :: rest =>
    if bearerChars.isPrefixOf (c :: rest) then stripBearerAux f (rest.drop 6)
    else c :: stripBearerAux f rest

/-- Python `token.replace('Bearer ', '')` on the character list: delete every
leftmost non-overlapping occurrence of `"Bearer "`. The fuel of the worker
only forces structural recursion. -/
def stripBearer (l : List Char) : List Char := stripBearerAux l.length l

theorem stripBearerAux_irrel :
    ∀ (f₁ : Nat) (f₂ : Nat) (l : List Char), l.length ≤ f₁ → l.length ≤ f₂ →
      stripBearerAux f₁ l = stripBearerAux f₂ l := by
  intro f₁
  induction f₁ with
  | zero =>
    intro f₂ l h₁ h₂
    have hl : l = [] := by cases l with
      | nil => rfl
      | cons c r => simp at h₁
    subst hl
    cases f₂ <;> rfl
  | succ g₁ ih =>
    intro f₂ l h₁ h₂
    cases l with
    | nil => cases f₂ <;> rfl
    | cons c rest =>
      match f₂, h₂ with
      | g₂ + 1, h₂ =>
        simp only [stripBearerAux]
        simp only [List.length_cons] at h₁ h₂
        have hdrop : (rest.drop 6).length ≤ rest.length := by
          simp [List.length_drop]
        split
        · exact ih g₂ _ (by omega) (by omega)
        · rw [ih g₂ rest (by omega) (by omega)]

theorem stripBearerAux_eq {l : List Char} {f : Nat} (h : l.length ≤ f) :
    stripBearerAux f l = stripBearer l :=
  stripBearerAux_irrel f l.length l h (Nat.le_refl _)

/-- Unfolding equation for `stripBearer` on a non-empty list. -/
theorem stripBearer_cons (c : Char) (rest : List Char) :
    stripBearer (c :: rest)
      = if bearerChars.isPrefixOf (c :: rest) then stripBearer (rest.drop 6)
        else c :: stripBearer rest := by
  show stripBearerAux (rest.length + 1) (c :: rest) = _
  simp only [stripBearerAux]
  split
  · exact stripBearerAux_eq (by simp [List.length_drop])
  · rw [stripBearerAux_eq (Nat.le_refl _)]

/-- Consume one or more decimal digits followed by a dot; return the value
and the remainder. -/
def parseNatDot (l : List Char) : Option (Nat × List Char) :=
  let ds := l.takeWhile Char.isDigit
  if ds.isEmpty then none
  else
    match l.dropWhile Char.isDigit with
    | '.' :: r => some (digitsToNat ds, r)
    | _ => none

/-- Parse a token of the form `jwt.<user_id>.<exp>.<mac>`. -/
def parseToken : List Char → Option (Nat × Nat × List Char)
  | 'j' :: 'w' :: 't' :: '.' :: rest =>
    match parseNatDot rest with
    | none => none
    | some (uid, r1) =>
      match parseNatDot r1 with
      | none => none
      | some (e, r2) => some (uid, e, r2)
  | _ => none

theorem encodeChars_append (l₁ l₂ : List Char) :
    encodeChars (l₁ ++ l₂) = encodeChars l₁ ++ encodeChars l₂ := by
  induction l₁ with
  | nil => simp [encodeChars]
  | cons c rest ih => simp [encodeChars, ih]

/-- Characters produced by `encodeChars` are decimal digits or dots. -/
theorem encodeChars_chars (l : List Char) :
    ∀ c ∈ encodeChars l, c.isDigit = true ∨ c = '.' := by
  induction l with
  | nil => simp [encodeChars]
  | cons a rest ih =>
    intro c hc
    simp only [encodeChars, encChar, List.append_assoc, List.cons_append,
      List.nil_append, List.mem_append, List.mem_cons] at hc
    rcases hc with hc | hc | hc
    · exact Or.inl (natDigits_isDigit _ c hc)
    · exact Or.inr hc
    · exact ih c hc

/-- Two dot-free blocks followed by a dot separate uniquely. -/
theorem dot_sep {xs ys u v : List Char}
    (hx : ∀ c ∈ xs, c ≠ '.') (hy : ∀ c ∈ ys, c ≠ '.')
    (h : xs ++ '.' :: u = ys ++ '.' :: v) : xs = ys ∧ u = v := by
  induction xs generalizing ys with
  | nil =>
    cases ys with
    | nil => simpa using h
    | cons b bs =>
      simp only [List.nil_append, List.cons_append, List.cons.injEq] at h
      exact absurd h.1.symm (hy b (by simp))
  | cons a as ih =>
    cases ys with
    | nil =>
      simp only [List.cons_append, List.nil_append, List.cons.injEq] at h
      exact absurd h.1 (hx a (by simp))
    | cons b bs =>
      simp only [List.cons_append, List.cons.injEq] at h
      obtain ⟨hab, htail⟩ := h
      have := ih (fun c hc => hx c (by simp [hc])) (fun c hc => hy c (by simp [hc])) htail
      exact ⟨by simp [hab, this.1], this.2⟩

theorem natDigits_ne_dot (n : Nat) : ∀ c ∈ natDigits n, c ≠ '.' := by
  intro c hc
  have := natDigits_isDigit n c hc
  intro h
  subst h
  simp [Char.isDigit] at this

theorem natDigits_inj {m n : Nat} (h : natDigits m = natDigits n) : m = n := by
  have := digitsToNat_natDigits m
  rw [h, digitsToNat_natDigits] at this
  omega

theorem encodeChars_inj {l₁ l₂ : List Char}
    (h : encodeChars l₁ = encodeChars l₂) : l₁ = l₂ := by
  induction l₁ generalizing l₂ with
  | nil =>
    cases l₂ with
    | nil => rfl
    | cons b bs =>
      simp only [encodeChars, encChar] at h
      exact absurd h.symm (by simp [natDigits_ne_nil])
  | cons a as ih =>
    cases l₂ with
    | nil =>
      simp only [encodeChars, encChar] at h
      exact absurd h (by simp [natDigits_ne_nil])
    | cons b bs =>
      simp only [encodeChars, encChar, List.append_assoc, List.cons_append,
        List.nil_append] at h
      obtain ⟨hd, htl⟩ := dot_sep (natDigits_ne_dot _) (natDigits_ne_dot _) h
      have hab : a = b := by
        have := natDigits_inj hd
        exact Char.eq_of_val_eq (by
          apply UInt32.eq_of_val_eq
          apply Fin.ext
          simpa [Char.toNat] using this)
      rw [hab, ih htl]

/-- A list without the character `B` is left unchanged by `stripBearer`. -/
theorem stripBearer_of_no_B {l : List Char} (h : ∀ c ∈ l, c ≠ 'B') :
    stripBearer l = l := by
  induction l with
  | nil => rfl
  | cons c rest ih =>
    rw [stripBearer_cons]
    have hc : c ≠ 'B' := h c (by simp)
    have hpre : bearerChars.isPrefixOf (c :: rest) = false := by
      simp only [bearerChars, List.isPrefixOf]
      simp [Ne.symm hc]
    rw [hpre]
    simp only [Bool.false_eq_true, if_false]
    rw [ih (fun x hx => h x (by simp [hx]))]

/-- Stripping removes a leading `"Bearer "` marker. -/
theorem stripBearer_bearer_append (l : List Char) :
    stripBearer (bearerChars ++ l) = stripBearer l := by
  have hshape : bearerChars ++ l
      = 'B' :: 'e' :: 'a' :: 'r' :: 'e' :: 'r' :: ' ' :: l := rfl
  rw [hshape, stripBearer_cons]
  have hpre : bearerChars.isPrefixOf
      ('B' :: 'e' :: 'a' :: 'r' :: 'e' :: 'r' :: ' ' :: l) = true := by
    simp [bearerChars, List.isPrefixOf]
  rw [hpre]
  simp [List.drop]

theorem takeWhile_append_stop {p : Char → Bool} {l₁ : List Char} {c : Char}
    (l₂ : List Char) (h₁ : ∀ x ∈ l₁, p x = true) (hc : p c = false) :
    (l₁ ++ c :: l₂).takeWhile p = l₁ := by
  induction l₁ with
  | nil => simp [List.takeWhile, hc]
  | cons a as ih =>
    simp only [List.cons_append, List.takeWhile]
    rw [h₁ a (by simp)]
    simp only [List.cons.injEq, true_and]
    exact ih (fun x hx => h₁ x (by simp [hx]))

theorem dropWhile_append_stop {p : Char → Bool} {l₁ : List Char} {c : Char}
    (l₂ : List Char) (h₁ : ∀ x ∈ l₁, p x = true) (hc : p c = false) :
    (l₁ ++ c :: l₂).dropWhile p = c :: l₂ := by
  induction l₁ with
  | nil => simp [List.dropWhile, hc]
  | cons a as ih =>
    simp only [List.cons_append, List.dropWhile]
    rw [h₁ a (by simp)]
    exact ih (fun x hx => h₁ x (by simp [hx]))

theorem parseNatDot_encode (n : Nat) (r : List Char) :
    parseNatDot (natDigits n ++ '.' :: r) = some (n, r) := by
  have hdig : ∀ x ∈ natDigits n, x.isDigit = true := natDigits_isDigit n
  have hdot : ('.' : Char).isDigit = false := by decide
  simp only [parseNatDot, takeWhile_append_stop r hdig hdot,
    dropWhile_append_stop r hdig hdot]
  have hne : (natDigits n).isEmpty = false := by
    cases hh : natDigits n with
    | nil => exact absurd hh (natDigits_ne_nil n)
    | cons a as => simp [List.isEmpty]
  rw [hne]
  simp [digitsToNat_natDigits]

/-! ## Data model (src/app.py lines 22-31) -/

/-- Row of the `User` table: integer primary key, unique username,
stored password hash. -/
structure User where
  id : Nat
  username : String
  password : String
deriving DecidableEq, Repr

/-- The credential store: the `User` table plus the auto-increment counter
that assigns the next primary key. -/
structure DB where
  users : List User
  nextId : Nat
deriving DecidableEq, Repr

/-- An HTTP response: status code, `message` field, and the optional
`error` field that `token_required` adds with `str(e)`. -/
structure Response where
  status : Nat
  message : String
  errorDetail : Option String
deriving DecidableEq, Repr

/-! ## Model of werkzeug.security (external library, method sha256) -/

/-- Digest of salt and password, modelled as an injective executable
encoding standing in for SHA-256 of the salted password. -/
def digestChars (salt pw : String) : List Char :=
  encodeChars (salt.toList ++ '|' :: pw.toList)

/-- Model of `werkzeug.security.generate_password_hash(pw, method='sha256')`:
a hash string in werkzeug's `method$salt$digest` format. The salt, random in
the library, is passed in explicitly. -/
def generate_password_hash (salt pw : String) : String :=
  String.mk ("sha256".toList ++ '$' :: (salt.toList ++ '$' :: digestChars salt pw))

/-- Model of `werkzeug.security.check_password_hash(h, pw)`: split the
stored value on its first two `$` marks into method, salt and digest, and
compare the digest recomputed from that salt and the candidate password. -/
def check_password_hash (h pw : String) : Bool :=
  match splitFirst '$' h.toList with
  | none => false
  | some (m, rest) =>
    match splitFirst '$' rest with
    | none => false
    | some (s, hv) =>
      m == "sha256".toList && hv == digestChars (String.mk s) pw

/-! ## Model of PyJWT encode/decode with HS256 -/

/-- Decoded token payload: the `user_id` and `exp` claims written by `login`. -/
structure Payload where
  user_id : Nat
  exp : Nat
deriving DecidableEq, Repr

/-- Reason a token fails to decode, mirroring PyJWT's exception classes. -/
inductive JwtError
  | invalid
  | expired
deriving DecidableEq, Repr

/-- Message `str(e)` carries for each PyJWT exception. -/
def JwtError.message : JwtError → String
  | .invalid => "Signature verification failed"
  | .expired => "Signature has expired"

/-- Modelled HS256 mac over the payload, keyed by the server secret. -/
def sigChars (key : String) (uid e : Nat) : List Char :=
  encodeChars key.toList ++ natDigits uid ++ '.' :: natDigits e

/-- Model of `jwt.encode({'user_id': uid, 'exp': e}, key, algorithm="HS256")`:
a string `jwt.<uid>.<e>.<mac>`. -/
def jwt_encode (uid e : Nat) (key : String) : String :=
  String.mk ('j' :: 'w' :: 't' :: '.' ::
    (natDigits uid ++ '.' :: (natDigits e ++ '.' :: sigChars key uid e)))

/-- Model of `jwt.decode(token, key, algorithms=["HS256"])` at time `now`:
parse, verify the mac against the key, then check the `exp` claim, in
PyJWT's order (signature first, claims second). -/
def jwt_decode (token key : String) (now : Nat) : Except JwtError Payload :=
  match parseToken token.toList with
  | none => .error .invalid
  | some (uid, e, sig) =>
    if sig == sigChars key uid e then
      if e ≤ now then .error .expired else .ok ⟨uid, e⟩
    else .error .invalid

/-! ## The Flask handlers (src/app.py lines 37-100) -/

/-- Python falsiness of an optional string (`not username`):
absent or empty. -/
def falsy : Option String → Bool
  | none => true
  | some s => s == ""

/-- Response literal of src/app.py line 66 and 89. -/
def validationResp : Response :=
  ⟨400, "Vui lòng nhập đầy đủ tên đăng nhập và mật khẩu!", none⟩

/-- Response literal of src/app.py line 69. -/
def conflictResp : Response := ⟨409, "Tên đăng nhập đã tồn tại!", none⟩

/-- Response literal of src/app.py line 76. -/
def registeredResp : Response := ⟨201, "Đăng ký thành công!", none⟩

/-- Response literal of src/app.py line 93. -/
def loginFailResp : Response := ⟨401, "Tên đăng nhập hoặc mật khẩu không đúng!", none⟩

/-- Response literal of src/app.py line 44. -/
def missingTokenResp : Response := ⟨401, "Token is missing!", none⟩

/-- Response of src/app.py line 50: `{'message': ..., 'error': str(e)}`. -/
def invalidTokenResp (e : JwtError) : Response :=
  ⟨401, "Token is invalid!", some e.message⟩

/-- `POST /api/register` (src/app.py lines 59-76). The werkzeug salt, random
in the library, is passed in explicitly. Returns the response and the
resulting store. -/
def register (db : DB) (salt : String) (username? password? : Option String) :
    Response × DB :=
  if falsy username? || falsy password? then (validationResp, db)
  else
    let username := username?.getD ""
    let password := password?.getD ""
    if (db.users.find? (fun u => u.username == username)).isSome then
      (conflictResp, db)
    else
      let hashed := generate_password_hash salt password
      (registeredResp,
        ⟨db.users ++ [⟨db.nextId, username, hashed⟩], db.nextId + 1⟩)

/-- `POST /api/login` (src/app.py lines 82-100) at time `now`:
either an error response or the issued token string. -/
def login (db : DB) (key : String) (now : Nat)
    (username? password? : Option String) : Except Response String :=
  if falsy username? || falsy password? then .error validationResp
  else
    let username := username?.getD ""
    let password := password?.getD ""
    match db.users.find? (fun u => u.username == username) with
    | none => .error loginFailResp
    | some user =>
      if check_password_hash user.password password then
        .ok (jwt_encode user.id (now + 24 * 3600) key)
      else .error loginFailResp

/-- The `token_required` middleware (src/app.py lines 37-53) at time `now`:
on `.ok` the wrapped handler is invoked with `current_user`, which is
`none` when the token's `user_id` matches no row. -/
def token_required (db : DB) (key : String) (now : Nat)
    (authHeader : Option String) : Except Response (Option User) :=
  match authHeader with
  | none => .error missingTokenResp
  | some h =>
    if h = "" then .error missingTokenResp
    else
      let token := String.mk (stripBearer h.toList)
      match jwt_decode token key now with
      | .error e => .error (invalidTokenResp e)
      | .ok pl => .ok (db.users.find? (fun u => u.id == pl.user_id))

/-! ## Helper lemmas -/

theorem mk_toList (s : String) : String.mk s.toList = s := by
  cases s
  rfl

theorem toList_mk (l : List Char) : (String.mk l).toList = l := rfl

theorem toList_append (s t : String) : (s ++ t).toList = s.toList ++ t.toList := by
  cases s
  cases t
  rfl

theorem toList_inj {s t : String} (h : s.toList = t.toList) : s = t := by
  rw [← mk_toList s, ← mk_toList t, h]

theorem find?_append_none {p : User → Bool} {l₁ : List User} (l₂ : List User)
    (h : l₁.find? p = none) : (l₁ ++ l₂).find? p = l₂.find? p := by
  induction l₁ with
  | nil => rfl
  | cons a as ih =>
    rw [List.find?_cons] at h
    rw [List.cons_append, List.find?_cons]
    split
    · next hp => rw [hp] at h; simp at h
    · next hp =>
      rw [hp] at h
      simp only [Bool.false_eq_true, if_false] at h
      exact ih h

theorem splitFirst_append {sep : Char} {a : List Char} (b : List Char)
    (ha : ∀ c ∈ a, c ≠ sep) : splitFirst sep (a ++ sep :: b) = some (a, b) := by
  induction a with
  | nil => simp [splitFirst]
  | cons x xs ih =>
    have hx : x ≠ sep := ha x (by simp)
    simp only [List.cons_append, splitFirst, if_neg hx, List.append_eq]
    rw [ih (fun c hc => ha c (by simp [hc]))]

theorem digestChars_inj {salt pw pw' : String}
    (h : digestChars salt pw' = digestChars salt pw) : pw' = pw := by
  have := encodeChars_inj h
  have htail := List.append_cancel_left this
  simp only [List.cons.injEq, true_and] at htail
  exact toList_inj htail

theorem sha256_chars : ∀ c ∈ "sha256".toList, c ≠ '$' := by decide

/-- Verification of a freshly generated hash compares candidate passwords
for equality with the original plaintext. -/
theorem check_generate_iff {salt pw pw' : String} (hs : ∀ c ∈ salt.toList, c ≠ '$') :
    check_password_hash (generate_password_hash salt pw) pw' = true ↔ pw' = pw := by
  have hdig : ∀ c ∈ digestChars salt pw, c ≠ '$' := by
    intro c hc
    rcases encodeChars_chars _ c hc with h | h
    · intro he; subst he; simp [Char.isDigit] at h
    · intro he; rw [he] at h; exact absurd h (by decide)
  have hsplit1 : splitFirst '$' ((generate_password_hash salt pw).toList)
      = some ("sha256".toList, salt.toList ++ '$' :: digestChars salt pw) :=
    splitFirst_append _ sha256_chars
  have hsplit2 : splitFirst '$' (salt.toList ++ '$' :: digestChars salt pw)
      = some (salt.toList, digestChars salt pw) := splitFirst_append _ hs
  simp only [check_password_hash, hsplit1, hsplit2, mk_toList]
  constructor
  · intro h
    have hb := (Bool.and_eq_true _ _).mp h
    exact digestChars_inj (beq_iff_eq.mp hb.2).symm
  · intro h
    subst h
    simp

theorem check_generate_self {salt pw : String} (hs : ∀ c ∈ salt.toList, c ≠ '$') :
    check_password_hash (generate_password_hash salt pw) pw = true :=
  (check_generate_iff hs).mpr rfl

theorem encodeChars_length_ge (l : List Char) : l.length ≤ (encodeChars l).length := by
  induction l with
  | nil => simp [encodeChars]
  | cons c rest ih =>
    simp only [encodeChars, encChar, List.length_append, List.length_cons]
    have h1 : 1 ≤ (natDigits c.toNat).length := by
      cases hh : natDigits c.toNat with
      | nil => exact absurd hh (natDigits_ne_nil _)
      | cons a as => simp
    simp only [List.length_cons, List.length_append, List.length_nil] at *
    omega

/-- The stored hash string is never the plaintext (it is strictly longer). -/
theorem generate_ne_plaintext (salt pw : String) :
    generate_password_hash salt pw ≠ pw := by
  intro h
  have := congrArg (fun s => s.toList.length) h
  simp only [generate_password_hash, toList_mk, digestChars] at this
  have hd := encodeChars_length_ge (salt.toList ++ '|' :: pw.toList)
  simp only [List.length_append, List.length_cons] at this hd
  have h6 : ("sha256".toList).length = 6 := by decide
  rw [h6] at this
  omega

theorem isDigit_ne {c d : Char} (hc : c.isDigit = true) (hd : d.isDigit = false) :
    c ≠ d := by
  intro h
  rw [h, hd] at hc
  exact Bool.false_ne_true hc

/-- No character of an issued token is `B`, so `replace('Bearer ', '')`
leaves the token itself untouched. -/
theorem jwt_encode_no_B (uid e : Nat) (key : String) :
    ∀ c ∈ (jwt_encode uid e key).toList, c ≠ 'B' := by
  intro c hc
  have hB : ('B' : Char).isDigit = false := by decide
  have key1 : ∀ x ∈ natDigits uid, x ≠ 'B' :=
    fun x hx => isDigit_ne (natDigits_isDigit _ _ hx) hB
  have key2 : ∀ x ∈ natDigits e, x ≠ 'B' :=
    fun x hx => isDigit_ne (natDigits_isDigit _ _ hx) hB
  have key3 : ∀ x ∈ encodeChars key.toList, x ≠ 'B' := by
    intro x hx
    rcases encodeChars_chars _ x hx with hh | hh
    · exact isDigit_ne hh hB
    · subst hh; decide
  simp only [jwt_encode, toList_mk, sigChars, List.mem_cons, List.mem_append] at hc
  casesm* _ ∨ _
  all_goals first
    | (subst_vars; decide)
    | exact key1 _ (by assumption)
    | exact key2 _ (by assumption)
    | exact key3 _ (by assumption)

theorem parseToken_encode (uid e : Nat) (key : String) :
    parseToken (jwt_encode uid e key).toList
      = some (uid, e, sigChars key uid e) := by
  simp only [jwt_encode, toList_mk, parseToken, parseNatDot_encode]

/-- Decoding an issued token with the issuing key before expiry returns the
payload. -/
theorem jwt_decode_encode {uid e now : Nat} (key : String) (h : now < e) :
    jwt_decode (jwt_encode uid e key) key now = .ok ⟨uid, e⟩ := by
  simp only [jwt_decode, parseToken_encode, beq_self_eq_true, if_true]
  rw [if_neg (by omega)]

/-- Decoding an issued token with the issuing key at or after expiry reports
expiry (the mac itself verifies). -/
theorem jwt_decode_encode_expired {uid e now : Nat} (key : String) (h : e ≤ now) :
    jwt_decode (jwt_encode uid e key) key now = .error .expired := by
  simp only [jwt_decode, parseToken_encode, beq_self_eq_true, if_true]
  rw [if_pos h]

theorem falsy_some_ne {s : String} (h : s ≠ "") : falsy (some s) = false := by
  simp [falsy, h]

theorem bearer_toList (t : String) :
    ("Bearer " ++ t).toList = bearerChars ++ t.toList := by
  rw [toList_append]
  rfl

theorem bearer_append_ne_empty (t : String) : "Bearer " ++ t ≠ "" := by
  intro h
  have := congrArg String.toList h
  rw [bearer_toList] at this
  simp [bearerChars] at this

/-! ## Claim theorems -/

/-- C9: `register` fails with the ValidationError response (HTTP 400) and
leaves the store unchanged whenever the identity or the password is missing
or empty; in particular an empty password is rejected. -/
theorem register_missing_fields (db : DB) (salt : String)
    (username? password? : Option String)
    (h : falsy username? = true ∨ falsy password? = true) :
    register db salt username? password? = (validationResp, db) := by
  rcases h with h | h <;> simp [register, h]

theorem register_missing_fields_witness :
    falsy (some "") = true ∧
    register ⟨[], 1⟩ "ab" (some "alice") (some "") = (validationResp, ⟨[], 1⟩) :=
  ⟨by decide, register_missing_fields ⟨[], 1⟩ "ab" (some "alice") (some "")
    (Or.inr (by decide))⟩

/-- C5: a second `register` call for an identity that already has a stored
record fails with the ConflictError response (HTTP 409) and leaves the
store unchanged. -/
theorem register_duplicate_conflict (db : DB) (salt u p : String) (w : User)
    (hu : u ≠ "") (hp : p ≠ "")
    (hfound : db.users.find? (fun x => x.username == u) = some w) :
    register db salt (some u) (some p) = (conflictResp, db) := by
  simp [register, falsy_some_ne hu, falsy_some_ne hp, hfound]

theorem register_duplicate_conflict_witness :
    ([⟨1, "alice", "h"⟩] : List User).find? (fun x => x.username == "alice")
        = some ⟨1, "alice", "h"⟩ ∧
    register ⟨[⟨1, "alice", "h"⟩], 2⟩ "cd" (some "alice") (some "pw")
        = (conflictResp, ⟨[⟨1, "alice", "h"⟩], 2⟩) :=
  ⟨by decide, register_duplicate_conflict ⟨[⟨1, "alice", "h"⟩], 2⟩ "cd" "alice" "pw"
    ⟨1, "alice", "h"⟩ (by decide) (by decide) (by decide)⟩

/-- C10: whenever `register` answers with the ValidationError (400) or
ConflictError (409) response, the credential store is returned unchanged:
no record is created or modified. -/
theorem register_failure_preserves_store (db : DB) (salt : String)
    (username? password? : Option String)
    (h : (register db salt username? password?).1.status = 400 ∨
         (register db salt username? password?).1.status = 409) :
    (register db salt username? password?).2 = db := by
  by_cases hv : (falsy username? || falsy password?) = true
  · simp [register, hv]
  · rw [Bool.not_eq_true] at hv
    by_cases hc : ((db.users.find? (fun x => x.username == username?.getD "")).isSome) = true
    · simp [register, hv, hc]
    · rw [Bool.not_eq_true] at hc
      exfalso
      rcases h with h | h <;>
        simp [register, hv, hc, registeredResp, validationResp, conflictResp] at h

theorem register_failure_preserves_store_witness :
    (register ⟨[], 1⟩ "ab" (some "alice") none).1.status = 400 ∧
    (register ⟨[], 1⟩ "ab" (some "alice") none).2 = ⟨[], 1⟩ :=
  ⟨by decide, register_failure_preserves_store ⟨[], 1⟩ "ab" (some "alice") none
    (Or.inl (by decide))⟩

/-- C3: a `login` for an identity with no stored record and a `login` for
an existing identity with a wrong password produce the very same rejection
(the same 401 status and identical message), so the response does not
reveal whether the identity exists. -/
theorem login_uniform_rejection (db : DB) (key : String) (now : Nat)
    (u1 p1 u2 p2 : String) (w : User)
    (h1 : u1 ≠ "") (hp1 : p1 ≠ "") (h2 : u2 ≠ "") (hp2 : p2 ≠ "")
    (hu1 : db.users.find? (fun x => x.username == u1) = none)
    (hu2 : db.users.find? (fun x => x.username == u2) = some w)
    (hpw : check_password_hash w.password p2 = false) :
    login db key now (some u1) (some p1) = .error loginFailResp ∧
    login db key now (some u2) (some p2) = .error loginFailResp := by
  constructor
  · simp [login, falsy_some_ne h1, falsy_some_ne hp1, hu1]
  · simp [login, falsy_some_ne h2, falsy_some_ne hp2, hu2, hpw]

theorem login_uniform_rejection_witness :
    check_password_hash (generate_password_hash "ab" "pw") "bad" = false ∧
    login ⟨[⟨1, "alice", generate_password_hash "ab" "pw"⟩], 2⟩ "k" 0
        (some "bob") (some "x") = .error loginFailResp ∧
    login ⟨[⟨1, "alice", generate_password_hash "ab" "pw"⟩], 2⟩ "k" 0
        (some "alice") (some "bad") = .error loginFailResp :=
  ⟨by decide,
    login_uniform_rejection ⟨[⟨1, "alice", generate_password_hash "ab" "pw"⟩], 2⟩
      "k" 0 "bob" "x" "alice" "bad" ⟨1, "alice", generate_password_hash "ab" "pw"⟩
      (by decide) (by decide) (by decide) (by decide)
      (by decide) (by decide) (by decide)⟩

/-- C4: a token whose expiration instant has passed is rejected by the
middleware with a 401 response, even though it was signed with the server
secret itself (the mac verifies; rejection is due to expiry alone). -/
theorem expired_token_rejected (db : DB) (key : String) (now uid e : Nat)
    (hexp : e ≤ now) :
    token_required db key now (some ("Bearer " ++ jwt_encode uid e key))
      = .error (invalidTokenResp .expired) := by
  have hne := bearer_append_ne_empty (jwt_encode uid e key)
  have hstrip : stripBearer (("Bearer " ++ jwt_encode uid e key).toList)
      = (jwt_encode uid e key).toList := by
    rw [bearer_toList, stripBearer_bearer_append,
      stripBearer_of_no_B (jwt_encode_no_B uid e key)]
  simp only [token_required, if_neg hne, hstrip, mk_toList,
    jwt_decode_encode_expired key hexp]

theorem expired_token_rejected_witness :
    (100 : Nat) ≤ 200 ∧
    token_required ⟨[], 1⟩ "k" 200 (some ("Bearer " ++ jwt_encode 5 100 "k"))
      = .error (invalidTokenResp .expired) :=
  ⟨by decide, expired_token_rejected ⟨[], 1⟩ "k" 200 5 100 (by decide)⟩

/-- C6: the middleware rejects with 401 when no token is supplied at all
(absent header, and the empty header Python also treats as falsy), and when
a header does carry the `Bearer ` marker it is stripped before validation:
the validated remainder is exactly the token after the marker, and the
outcome equals validating that remainder directly. -/
theorem missing_token_and_bearer_stripping (db : DB) (key : String) (now : Nat)
    (t : String) (ht : t ≠ "") (hB : ∀ c ∈ t.toList, c ≠ 'B') :
    token_required db key now none = .error missingTokenResp ∧
    token_required db key now (some "") = .error missingTokenResp ∧
    String.mk (stripBearer (("Bearer " ++ t).toList)) = t ∧
    token_required db key now (some ("Bearer " ++ t))
      = token_required db key now (some t) := by
  have hstrip : stripBearer (("Bearer " ++ t).toList) = stripBearer t.toList := by
    rw [bearer_toList, stripBearer_bearer_append]
  have hfix : stripBearer t.toList = t.toList := stripBearer_of_no_B hB
  refine ⟨rfl, by simp [token_required], ?_, ?_⟩
  · rw [hstrip, hfix, mk_toList]
  · have hne := bearer_append_ne_empty t
    simp only [token_required, if_neg hne, if_neg ht, hstrip]

theorem missing_token_and_bearer_stripping_witness :
    ("jwt.1.2.x" : String) ≠ "" ∧
    token_required ⟨[], 1⟩ "k" 0 none = .error missingTokenResp ∧
    token_required ⟨[], 1⟩ "k" 0 (some "") = .error missingTokenResp ∧
    String.mk (stripBearer (("Bearer " ++ "jwt.1.2.x").toList)) = "jwt.1.2.x" ∧
    token_required ⟨[], 1⟩ "k" 0 (some ("Bearer " ++ "jwt.1.2.x"))
      = token_required ⟨[], 1⟩ "k" 0 (some "jwt.1.2.x") :=
  ⟨by decide, missing_token_and_bearer_stripping ⟨[], 1⟩ "k" 0 "jwt.1.2.x"
    (by decide) (by decide)⟩

/-- C2 (amended): a presented token with a valid signature and an unexpired
expiration instant whose `user_id` matches no stored record is NOT rejected:
the middleware succeeds and invokes the protected handler with no user
(`current_user = None`). -/
theorem valid_token_unknown_identity_passes_none (db : DB) (key : String)
    (now : Nat) (h : String) (pl : Payload) (hne : h ≠ "")
    (hdec : jwt_decode (String.mk (stripBearer h.toList)) key now = .ok pl)
    (hmiss : db.users.find? (fun x => x.id == pl.user_id) = none) :
    token_required db key now (some h) = .ok none := by
  simp only [token_required, if_neg hne, hdec, hmiss]

theorem valid_token_unknown_identity_passes_none_witness :
    jwt_decode (String.mk (stripBearer (("Bearer " ++ jwt_encode 5 100 "k").toList)))
        "k" 0 = .ok ⟨5, 100⟩ ∧
    token_required ⟨[], 1⟩ "k" 0 (some ("Bearer " ++ jwt_encode 5 100 "k"))
      = .ok none :=
  ⟨by decide, valid_token_unknown_identity_passes_none ⟨[], 1⟩ "k" 0
    ("Bearer " ++ jwt_encode 5 100 "k") ⟨5, 100⟩ (by decide) (by decide) (by decide)⟩

/-- C2 (counterexample to the claim as stated): a concrete token signed with
the server key, unexpired, whose `user_id` 5 matches no stored record, is
accepted by the middleware (result `.ok none`), not rejected with a 401
AuthError as the claim requires. -/
theorem verify_unknown_identity_counterexample :
    jwt_decode (jwt_encode 5 100 "k") "k" 0 = .ok ⟨5, 100⟩ ∧
    token_required ⟨[], 1⟩ "k" 0 (some ("Bearer " ++ jwt_encode 5 100 "k"))
      = .ok none := by
  constructor <;> decide

/-- C7: a token issued by a successful `login` carries expiration exactly
24 hours (86400 seconds) after issuance, its payload references the
authenticated identity's id, and it is signed with the server key: decoding
it with that key returns exactly that payload. -/
theorem login_token_contents (db : DB) (key u p : String) (now : Nat) (w : User)
    (hu : u ≠ "") (hp : p ≠ "")
    (hfind : db.users.find? (fun x => x.username == u) = some w)
    (hpw : check_password_hash w.password p = true) :
    login db key now (some u) (some p) = .ok (jwt_encode w.id (now + 24 * 3600) key) ∧
    jwt_decode (jwt_encode w.id (now + 24 * 3600) key) key now
      = .ok ⟨w.id, now + 24 * 3600⟩ := by
  constructor
  · simp [login, falsy_some_ne hu, falsy_some_ne hp, hfind, hpw]
  · exact jwt_decode_encode key (by omega)

theorem login_token_contents_witness :
    check_password_hash (generate_password_hash "ab" "pw") "pw" = true ∧
    login ⟨[⟨1, "alice", generate_password_hash "ab" "pw"⟩], 2⟩ "k" 0
        (some "alice") (some "pw") = .ok (jwt_encode 1 (0 + 24 * 3600) "k") ∧
    jwt_decode (jwt_encode 1 (0 + 24 * 3600) "k") "k" 0 = .ok ⟨1, 0 + 24 * 3600⟩ :=
  ⟨by decide, login_token_contents ⟨[⟨1, "alice", generate_password_hash "ab" "pw"⟩], 2⟩
    "k" "alice" "pw" 0 ⟨1, "alice", generate_password_hash "ab" "pw"⟩
    (by decide) (by decide) (by decide) (by decide)⟩

/-- C1: round trip. After registering a fresh identity, a `login` with the
same identity and password succeeds and returns a token, and verifying that
token immediately (before its expiry, record still present) resolves to the
registered record, whose username is the original identity. The hypotheses
state the database invariants: the identity is fresh and every stored id is
below the auto-increment counter. -/
theorem register_login_verify_roundtrip (db : DB) (salt key u p : String)
    (now now' : Nat) (hu : u ≠ "") (hp : p ≠ "")
    (hnew : db.users.find? (fun x => x.username == u) = none)
    (hid : ∀ x ∈ db.users, x.id < db.nextId)
    (hs : ∀ c ∈ salt.toList, c ≠ '$')
    (hnow : now' < now + 24 * 3600) :
    login (register db salt (some u) (some p)).2 key now (some u) (some p)
      = .ok (jwt_encode db.nextId (now + 24 * 3600) key) ∧
    token_required (register db salt (some u) (some p)).2 key now'
        (some ("Bearer " ++ jwt_encode db.nextId (now + 24 * 3600) key))
      = .ok (some ⟨db.nextId, u, generate_password_hash salt p⟩) ∧
    (User.mk db.nextId u (generate_password_hash salt p)).username = u := by
  have hreg : (register db salt (some u) (some p)).2
      = ⟨db.users ++ [⟨db.nextId, u, generate_password_hash salt p⟩], db.nextId + 1⟩ := by
    simp [register, falsy_some_ne hu, falsy_some_ne hp, hnew]
  have hfindu : List.find? (fun x => x.username == u)
        (db.users ++ [User.mk db.nextId u (generate_password_hash salt p)])
      = some (User.mk db.nextId u (generate_password_hash salt p)) := by
    rw [find?_append_none _ hnew]
    simp [List.find?]
  have hnoneid : List.find? (fun x => x.id == db.nextId) db.users = none := by
    rw [List.find?_eq_none]
    intro x hx
    have := hid x hx
    simp only [beq_iff_eq]
    omega
  have hfindid : List.find? (fun x => x.id == db.nextId)
        (db.users ++ [User.mk db.nextId u (generate_password_hash salt p)])
      = some (User.mk db.nextId u (generate_password_hash salt p)) := by
    rw [find?_append_none _ hnoneid]
    simp [List.find?]
  refine ⟨?_, ?_, rfl⟩
  · rw [hreg]
    simp [login, falsy_some_ne hu, falsy_some_ne hp, hfindu, check_generate_self hs]
  · rw [hreg]
    have hne := bearer_append_ne_empty (jwt_encode db.nextId (now + 24 * 3600) key)
    have hstrip : stripBearer (("Bearer " ++ jwt_encode db.nextId (now + 24 * 3600) key).toList)
        = (jwt_encode db.nextId (now + 24 * 3600) key).toList := by
      rw [bearer_toList, stripBearer_bearer_append,
        stripBearer_of_no_B (jwt_encode_no_B _ _ _)]
    simp only [token_required, if_neg hne, hstrip, mk_toList,
      jwt_decode_encode key hnow, hfindid]

theorem register_login_verify_roundtrip_witness :
    (100 : Nat) < 0 + 24 * 3600 ∧
    login (register ⟨[], 1⟩ "ab" (some "alice") (some "pw")).2 "k" 0
        (some "alice") (some "pw") = .ok (jwt_encode 1 (0 + 24 * 3600) "k") ∧
    token_required (register ⟨[], 1⟩ "ab" (some "alice") (some "pw")).2 "k" 100
        (some ("Bearer " ++ jwt_encode 1 (0 + 24 * 3600) "k"))
      = .ok (some ⟨1, "alice", generate_password_hash "ab" "pw"⟩) ∧
    (User.mk 1 "alice" (generate_password_hash "ab" "pw")).username = "alice" :=
  ⟨by decide, register_login_verify_roundtrip ⟨[], 1⟩ "ab" "k" "alice" "pw" 0 100
    (by decide) (by decide) (by decide) (by decide) (by decide) (by decide)⟩

/-- C8: the stored hash of a plaintext password is never equal to the
plaintext itself, and verifying against a freshly stored hash succeeds for
exactly the original plaintext and no other candidate. The salt is assumed
free of the `$` field separator, as werkzeug's alphanumeric salts are. -/
theorem password_hash_verification (salt pw : String)
    (hs : ∀ c ∈ salt.toList, c ≠ '$') :
    generate_password_hash salt pw ≠ pw ∧
    ∀ pw', check_password_hash (generate_password_hash salt pw) pw' = true ↔ pw' = pw :=
  ⟨generate_ne_plaintext salt pw, fun _ => check_generate_iff hs⟩

theorem password_hash_verification_witness :
    (∀ c ∈ "ab".toList, c ≠ '$') ∧
    generate_password_hash "ab" "pw" ≠ "pw" ∧
    (check_password_hash (generate_password_hash "ab" "pw") "pw" = true ↔ ("pw" : String) = "pw") :=
  ⟨by decide, (password_hash_verification "ab" "pw" (by decide)).1,
    (password_hash_verification "ab" "pw" (by decide)).2 "pw"⟩

end BackendShop
